import Mathlib

/-
Verification of the permission-gated deferred-execution registry declared in
chrome/browser/extensions/active_script_controller.h (class
ActiveScriptController).  Only the header is present in the repository, so the
method bodies are modelled from the specification, as recorded on each
definition.  Machine state is embedded shallowly: the std::map of pending
requests becomes an association list keyed by extension id, the std::set of
permitted extensions becomes a duplicate-free list, and a base::Closure becomes
an inductive value whose invocation is given an explicit semantics (it may
succeed, fail, or re-enter the registry by submitting a new request).  Two
observation fields, `executed` and `failed`, record the order in which
closures are invoked and which of them failed.
-/

namespace Extensions

/-- Modelled from the spec: a deferred action (base::Closure in the header,
whose body is not in the repository).  `basic n ok` is an ordinary action with
identity `n` that succeeds when `ok` is true and fails otherwise; `submitting
n e sub pid` is an action with identity `n` that, when invoked, re-enters the
registry and submits closure `sub` for extension `e` with page id `pid`. -/
inductive Closure where
  | basic (n : Nat) (ok : Bool)
  | submitting (n : Nat) (extensionId : String) (sub : Closure) (pageId : Int)
deriving DecidableEq, Repr

/-- The identity of a closure, used to observe execution order. -/
def Closure.ident : Closure → Nat
  | .basic n _ => n
  | .submitting n _ _ _ => n

/-- The extension id a closure re-submits for, if any. -/
def Closure.target : Closure → Option String
  | .basic _ _ => none
  | .submitting _ e _ _ => some e

/-- A single pending request, as declared in the header: a closure plus the
page id it was issued against. -/
structure PendingRequest where
  closure : Closure
  page_id : Int
deriving DecidableEq, Repr

/-- PendingRequestList from the header: std::vector<PendingRequest>. -/
abbrev PendingRequestList := List PendingRequest

/-- PendingRequestMap from the header: std::map<std::string,
PendingRequestList>, embedded as an association list with unique keys. -/
abbrev PendingRequestMap := List (String × PendingRequestList)

/-- Look up the pending-request list for an extension id; `none` means the key
is absent (no pending requests). -/
def lookupPending (extensionId : String) : PendingRequestMap → Option PendingRequestList
  | [] => none
  | (k, v) :: rest => if k = extensionId then some v else lookupPending extensionId rest

/-- Append a request to an extension's queue, creating the key if absent. -/
def appendPending (extensionId : String) (r : PendingRequest) : PendingRequestMap → PendingRequestMap
  | [] => [(extensionId, [r])]
  | (k, v) :: rest =>
      if k = extensionId then (k, v ++ [r]) :: rest
      else (k, v) :: appendPending extensionId r rest

/-- Remove an extension's queue entry from the map entirely. -/
def erasePending (extensionId : String) : PendingRequestMap → PendingRequestMap
  | [] => []
  | (k, v) :: rest =>
      if k = extensionId then erasePending extensionId rest
      else (k, v) :: erasePending extensionId rest

/-- The ActiveScriptController state from the header: the enforcement flag
`enabled_`, the pending-request map, the permitted-extension set, and the
per-extension action metadata map (modelled by its key set, since only key
presence matters to the claims).  `executed` and `failed` are observation
traces recording invoked closure identities in order, and those that failed. -/
structure ActiveScriptController where
  enabled_ : Bool
  pending_requests_ : PendingRequestMap
  permitted_extensions_ : List String
  active_script_actions_ : List String
  executed : List Nat
  failed : List Nat
deriving DecidableEq, Repr

/-- A freshly constructed controller with the given enforcement flag and no
pending requests, permissions, or metadata. -/
def mkActiveScriptController (enabled : Bool) : ActiveScriptController :=
  ⟨enabled, [], [], [], [], []⟩

/-- Modelled from the spec: RequiresUserConsentForScriptInjection (body absent
from the repository).  Returns false unconditionally when the gate is
disabled; otherwise returns the negation of PermittedSet membership. -/
def RequiresUserConsentForScriptInjection (extensionId : String)
    (c : ActiveScriptController) : Bool :=
  if !c.enabled_ then false
  else !(c.permitted_extensions_.contains extensionId)

/-- Modelled from the spec: RequestScriptInjection / submit (body absent from
the repository).  Appends a PendingRequest to the extension's queue and lazily
creates the extension's action metadata entry. -/
def RequestScriptInjection (extensionId : String) (page_id : Int)
    (callback : Closure) (c : ActiveScriptController) : ActiveScriptController :=
  { c with
    pending_requests_ := appendPending extensionId ⟨callback, page_id⟩ c.pending_requests_,
    active_script_actions_ :=
      if c.active_script_actions_.contains extensionId then c.active_script_actions_
      else c.active_script_actions_ ++ [extensionId] }

/-- Modelled from the spec: invoking a closure during release.  A basic closure
records its identity in the execution trace (and in the failure trace when it
fails); a submitting closure records its identity and then re-enters the
registry via RequestScriptInjection. -/
def invoke (cl : Closure) (c : ActiveScriptController) : ActiveScriptController :=
  match cl with
  | .basic n ok =>
      if ok then { c with executed := c.executed ++ [n] }
      else { c with executed := c.executed ++ [n], failed := c.failed ++ [n] }
  | .submitting n extId sub pid =>
      RequestScriptInjection extId pid sub { c with executed := c.executed ++ [n] }

/-- Invoke a snapshot of requests in order, threading the state. -/
def invokeAll (rs : PendingRequestList) (c : ActiveScriptController) : ActiveScriptController :=
  rs.foldl (fun s r => invoke r.closure s) c

/-- Modelled from the spec: RunPendingForExtension / release (body absent from
the repository).  If the extension has a non-empty queue, removes the map
entry first (snapshot/drain), then invokes every captured closure in original
submission order; returns the count released, 0 if none pending. -/
def RunPendingForExtension (extensionId : String)
    (c : ActiveScriptController) : ActiveScriptController × Nat :=
  match lookupPending extensionId c.pending_requests_ with
  | none => (c, 0)
  | some reqs =>
      if reqs.isEmpty then (c, 0)
      else
        (invokeAll reqs
          { c with pending_requests_ := erasePending extensionId c.pending_requests_ },
         reqs.length)

/-- Modelled from the spec: the PermissionGate grant operation.  Idempotent;
adds the extension to PermittedSet; a no-op when the gate is disabled. -/
def grant (extensionId : String) (c : ActiveScriptController) : ActiveScriptController :=
  if !c.enabled_ then c
  else if extensionId ∈ c.permitted_extensions_ then c
  else { c with permitted_extensions_ := c.permitted_extensions_ ++ [extensionId] }

/-- Modelled from the spec: OnActiveTabPermissionGranted (body absent from the
repository).  Grants permission and then runs any pending injections for the
extension. -/
def OnActiveTabPermissionGranted (extensionId : String)
    (c : ActiveScriptController) : ActiveScriptController :=
  (RunPendingForExtension extensionId (grant extensionId c)).1

/-- Modelled from the spec: OnNavigated (body absent from the repository).
Clears PermittedSet, the whole pending-request map, and the action metadata. -/
def OnNavigated (c : ActiveScriptController) : ActiveScriptController :=
  { c with
    permitted_extensions_ := [],
    pending_requests_ := [],
    active_script_actions_ := [] }

/-- Modelled from the spec: OnExtensionUnloaded (body absent from the
repository).  Removes the extension from PermittedSet, empties its pending
queue, and removes its action metadata. -/
def OnExtensionUnloaded (extensionId : String)
    (c : ActiveScriptController) : ActiveScriptController :=
  { c with
    permitted_extensions_ := c.permitted_extensions_.filter (fun e => !(e == extensionId)),
    pending_requests_ := erasePending extensionId c.pending_requests_,
    active_script_actions_ := c.active_script_actions_.filter (fun e => !(e == extensionId)) }

/-
Helper lemmas about the association-list map and the invocation semantics.
-/

theorem lookupPending_append_self (p : String) (r : PendingRequest) (m : PendingRequestMap) :
    lookupPending p (appendPending p r m) = some ((lookupPending p m).getD [] ++ [r]) := by
  induction m with
  | nil => simp [lookupPending, appendPending]
  | cons kv rest ih =>
    obtain ⟨k, v⟩ := kv
    by_cases hk : k = p
    · subst hk
      simp [lookupPending, appendPending]
    · simp [lookupPending, appendPending, hk, ih]

theorem lookupPending_append_ne (q p : String) (hq : q ≠ p) (r : PendingRequest)
    (m : PendingRequestMap) :
    lookupPending q (appendPending p r m) = lookupPending q m := by
  induction m with
  | nil =>
    have : ¬ p = q := fun h => hq h.symm
    simp [lookupPending, appendPending, this]
  | cons kv rest ih =>
    obtain ⟨k, v⟩ := kv
    by_cases hk : k = p
    · subst hk
      have : ¬ k = q := fun h => hq h.symm
      simp [lookupPending, appendPending, this]
    · by_cases hq2 : k = q
      · subst hq2
        simp [lookupPending, appendPending, hk]
      · simp [lookupPending, appendPending, hk, hq2, ih]

theorem lookupPending_erase_self (p : String) (m : PendingRequestMap) :
    lookupPending p (erasePending p m) = none := by
  induction m with
  | nil => simp [lookupPending, erasePending]
  | cons kv rest ih =>
    obtain ⟨k, v⟩ := kv
    by_cases hk : k = p
    · simp [erasePending, hk, ih]
    · simp [lookupPending, erasePending, hk, ih]

theorem lookupPending_erase_ne (q p : String) (hq : q ≠ p) (m : PendingRequestMap) :
    lookupPending q (erasePending p m) = lookupPending q m := by
  induction m with
  | nil => simp [erasePending]
  | cons kv rest ih =>
    obtain ⟨k, v⟩ := kv
    by_cases hk : k = p
    · subst hk
      have : ¬ k = q := fun h => hq h.symm
      simp [lookupPending, erasePending, this, ih]
    · by_cases hq2 : k = q
      · subst hq2
        simp [lookupPending, erasePending, hk]
      · simp [lookupPending, erasePending, hk, hq2, ih]

theorem contains_append_self (l : List String) (p : String) :
    (l ++ [p]).contains p = true := by
  induction l with
  | nil => simp
  | cons a rest ih => simp [ih]

theorem contains_filter_self (l : List String) (p : String) :
    (l.filter (fun e => !(e == p))).contains p = false := by
  induction l with
  | nil => simp
  | cons a rest ih =>
    by_cases ha : a = p
    · subst ha
      simp [List.filter, ih]
    · have hb : (a == p) = false := beq_false_of_ne ha
      have ha2 : ¬ p = a := fun h => ha h.symm
      simp [List.filter, hb, ih, ha2]

theorem RequestScriptInjection_executed (e : String) (t : Int) (cl : Closure)
    (c : ActiveScriptController) :
    (RequestScriptInjection e t cl c).executed = c.executed := by
  simp [RequestScriptInjection]

theorem RequestScriptInjection_failed (e : String) (t : Int) (cl : Closure)
    (c : ActiveScriptController) :
    (RequestScriptInjection e t cl c).failed = c.failed := by
  simp [RequestScriptInjection]

theorem grant_pending (e : String) (c : ActiveScriptController) :
    (grant e c).pending_requests_ = c.pending_requests_ := by
  unfold grant
  split <;> [rfl; skip]
  split <;> rfl

theorem grant_executed (e : String) (c : ActiveScriptController) :
    (grant e c).executed = c.executed := by
  unfold grant
  split <;> [rfl; skip]
  split <;> rfl

theorem grant_failed (e : String) (c : ActiveScriptController) :
    (grant e c).failed = c.failed := by
  unfold grant
  split <;> [rfl; skip]
  split <;> rfl

theorem invoke_executed (cl : Closure) (c : ActiveScriptController) :
    (invoke cl c).executed = c.executed ++ [cl.ident] := by
  cases cl with
  | basic n ok => cases ok <;> simp [invoke, Closure.ident]
  | submitting n e sub pid => simp [invoke, Closure.ident, RequestScriptInjection_executed]

theorem invokeAll_executed (rs : PendingRequestList) (c : ActiveScriptController) :
    (invokeAll rs c).executed = c.executed ++ rs.map (fun r => r.closure.ident) := by
  induction rs generalizing c with
  | nil => simp [invokeAll]
  | cons r rest ih =>
    simp [invokeAll, List.foldl_cons]
    rw [show (List.foldl (fun s r => invoke r.closure s) (invoke r.closure c) rest)
          = invokeAll rest (invoke r.closure c) from rfl]
    rw [ih, invoke_executed]
    simp

theorem invoke_lookup_of_target_ne (cl : Closure) (q : String)
    (h : cl.target ≠ some q) (c : ActiveScriptController) :
    lookupPending q (invoke cl c).pending_requests_ = lookupPending q c.pending_requests_ := by
  cases cl with
  | basic n ok => cases ok <;> simp [invoke]
  | submitting n e sub pid =>
    have he : q ≠ e := by
      intro hqe
      exact h (by simp [Closure.target, hqe])
    simp [invoke, RequestScriptInjection]
    exact lookupPending_append_ne q e he _ _

theorem invokeAll_lookup_of_targets_ne (rs : PendingRequestList) (q : String)
    (h : ∀ r ∈ rs, r.closure.target ≠ some q) (c : ActiveScriptController) :
    lookupPending q (invokeAll rs c).pending_requests_
      = lookupPending q c.pending_requests_ := by
  induction rs generalizing c with
  | nil => simp [invokeAll]
  | cons r rest ih =>
    have hr : r.closure.target ≠ some q := h r (List.mem_cons_self r rest)
    have hrest : ∀ r2 ∈ rest, r2.closure.target ≠ some q :=
      fun r2 hm => h r2 (List.mem_cons_of_mem r hm)
    rw [show invokeAll (r :: rest) c = invokeAll rest (invoke r.closure c) from rfl]
    rw [ih hrest, invoke_lookup_of_target_ne r.closure q hr]

theorem lookupPending_submit_self (e : String) (t : Int) (cl : Closure)
    (c : ActiveScriptController) :
    lookupPending e (RequestScriptInjection e t cl c).pending_requests_
      = some ((lookupPending e c.pending_requests_).getD [] ++ [⟨cl, t⟩]) := by
  show lookupPending e (appendPending e ⟨cl, t⟩ c.pending_requests_) = _
  exact lookupPending_append_self e ⟨cl, t⟩ c.pending_requests_

theorem lookupPending_submit_ne (q e : String) (hq : q ≠ e) (t : Int) (cl : Closure)
    (c : ActiveScriptController) :
    lookupPending q (RequestScriptInjection e t cl c).pending_requests_
      = lookupPending q c.pending_requests_ := by
  show lookupPending q (appendPending e ⟨cl, t⟩ c.pending_requests_) = _
  exact lookupPending_append_ne q e hq ⟨cl, t⟩ c.pending_requests_

theorem run_of_lookup_none (e : String) (c : ActiveScriptController)
    (h : lookupPending e c.pending_requests_ = none) :
    RunPendingForExtension e c = (c, 0) := by
  unfold RunPendingForExtension
  rw [h]

/-- C1: RequiresUserConsentForScriptInjection returns false whenever the
enforcement flag `enabled_` is false; when enforcement is enabled it returns
true exactly when the extension is not a member of `permitted_extensions_`
(in particular, true for every extension not yet granted). -/
theorem C1_requires_consent_gate (c : ActiveScriptController) (e : String) :
    RequiresUserConsentForScriptInjection e c = true ↔
      (c.enabled_ = true ∧ c.permitted_extensions_.contains e = false) := by
  unfold RequiresUserConsentForScriptInjection
  cases h : c.enabled_ <;> simp

/-- C9: RunPendingForExtension on an extension with no pending entries is a
harmless no-op: it executes no actions, leaves the state unchanged, and
returns a released-count of 0. -/
theorem C9_release_noop (c : ActiveScriptController) (e : String)
    (h : (lookupPending e c.pending_requests_).getD [] = []) :
    RunPendingForExtension e c = (c, 0) := by
  unfold RunPendingForExtension
  cases hl : lookupPending e c.pending_requests_ with
  | none => rfl
  | some reqs =>
    rw [hl] at h
    simp at h
    subst h
    simp

/-- Witness for C9 at a fresh controller, whose pending map has no entry. -/
theorem C9_release_noop_witness :
    (lookupPending "abc" (mkActiveScriptController true).pending_requests_).getD [] = [] ∧
    RunPendingForExtension "abc" (mkActiveScriptController true)
      = (mkActiveScriptController true, 0) :=
  ⟨rfl, C9_release_noop (mkActiveScriptController true) "abc" rfl⟩

/-- C10: grant is idempotent: from every starting state, granting the same
extension twice yields exactly the same controller state (hence the same
PermittedSet membership, pending queues, and requires-consent results) as
granting it once. -/
theorem C10_grant_idempotent (c : ActiveScriptController) (e : String) :
    grant e (grant e c) = grant e c := by
  by_cases hen : c.enabled_ = true
  · by_cases hc : e ∈ c.permitted_extensions_
    · have h1 : grant e c = c := by simp [grant, hen, hc]
      rw [h1, h1]
    · have h1 : grant e c
          = { c with permitted_extensions_ := c.permitted_extensions_ ++ [e] } := by
        simp [grant, hen, hc]
      rw [h1]
      simp [grant, hen]
  · have hen' : c.enabled_ = false := by simpa using hen
    have h1 : grant e c = c := by simp [grant, hen']
    rw [h1, h1]

/-- C3: navigation empties the whole pending map and resets the permitted
set, so a request submitted before the navigation never executes afterwards:
submit, navigate, grant, release leaves the execution trace unchanged and
releases a count of 0. -/
theorem C3_navigation_clears (c : ActiveScriptController) (e : String)
    (cl : Closure) (t : Int) :
    (OnNavigated (RequestScriptInjection e t cl c)).pending_requests_ = [] ∧
    (OnNavigated (RequestScriptInjection e t cl c)).permitted_extensions_ = [] ∧
    ((RunPendingForExtension e (grant e (OnNavigated (RequestScriptInjection e t cl c)))).1).executed
      = c.executed ∧
    (RunPendingForExtension e (grant e (OnNavigated (RequestScriptInjection e t cl c)))).2 = 0 := by
  have hl : lookupPending e
      (grant e (OnNavigated (RequestScriptInjection e t cl c))).pending_requests_ = none := by
    rw [grant_pending]
    rfl
  have hrun : RunPendingForExtension e (grant e (OnNavigated (RequestScriptInjection e t cl c)))
      = (grant e (OnNavigated (RequestScriptInjection e t cl c)), 0) := by
    unfold RunPendingForExtension
    rw [hl]
  refine ⟨rfl, rfl, ?_, ?_⟩
  · rw [hrun]
    rw [grant_executed]
    simp [OnNavigated, RequestScriptInjection_executed]
  · rw [hrun]

/-- C6: unloading an extension removes its entries from the pending map, the
permitted set, and the action metadata, so a request submitted before the
unload never executes: submit, unload, grant, release leaves the execution
trace unchanged and releases a count of 0. -/
theorem C6_unload_isolation (c : ActiveScriptController) (e : String)
    (cl : Closure) (t : Int) :
    lookupPending e (OnExtensionUnloaded e (RequestScriptInjection e t cl c)).pending_requests_ = none ∧
    (OnExtensionUnloaded e (RequestScriptInjection e t cl c)).permitted_extensions_.contains e = false ∧
    (OnExtensionUnloaded e (RequestScriptInjection e t cl c)).active_script_actions_.contains e = false ∧
    ((RunPendingForExtension e (grant e (OnExtensionUnloaded e (RequestScriptInjection e t cl c)))).1).executed
      = c.executed ∧
    (RunPendingForExtension e (grant e (OnExtensionUnloaded e (RequestScriptInjection e t cl c)))).2 = 0 := by
  have hp : lookupPending e
      (OnExtensionUnloaded e (RequestScriptInjection e t cl c)).pending_requests_ = none := by
    show lookupPending e (erasePending e _) = none
    exact lookupPending_erase_self e _
  have hl : lookupPending e
      (grant e (OnExtensionUnloaded e (RequestScriptInjection e t cl c))).pending_requests_ = none := by
    rw [grant_pending]
    exact hp
  have hrun : RunPendingForExtension e (grant e (OnExtensionUnloaded e (RequestScriptInjection e t cl c)))
      = (grant e (OnExtensionUnloaded e (RequestScriptInjection e t cl c)), 0) := by
    unfold RunPendingForExtension
    rw [hl]
  refine ⟨hp, ?_, ?_, ?_, ?_⟩
  · show (List.filter _ _).contains e = false
    exact contains_filter_self _ e
  · show (List.filter _ _).contains e = false
    exact contains_filter_self _ e
  · rw [hrun]
    rw [grant_executed]
    simp [OnExtensionUnloaded, RequestScriptInjection_executed]
  · rw [hrun]

/-- C2: releasing after two submissions for the same extension executes the
two closures in original submission order: submit a1, submit a2, grant,
release appends exactly [a1.ident, a2.ident] to the execution trace, never
reversed. -/
theorem C2_fifo_order (c : ActiveScriptController) (e : String) (a1 a2 : Closure)
    (t1 t2 : Int) (h : lookupPending e c.pending_requests_ = none) :
    ((RunPendingForExtension e (grant e (RequestScriptInjection e t2 a2
        (RequestScriptInjection e t1 a1 c)))).1).executed
      = c.executed ++ [a1.ident, a2.ident] := by
  have h1 : lookupPending e (RequestScriptInjection e t1 a1 c).pending_requests_
      = some [⟨a1, t1⟩] := by
    rw [lookupPending_submit_self, h]
    rfl
  have h2 : lookupPending e (RequestScriptInjection e t2 a2
      (RequestScriptInjection e t1 a1 c)).pending_requests_
      = some [⟨a1, t1⟩, ⟨a2, t2⟩] := by
    rw [lookupPending_submit_self, h1]
    rfl
  have h3 : lookupPending e (grant e (RequestScriptInjection e t2 a2
      (RequestScriptInjection e t1 a1 c))).pending_requests_
      = some [⟨a1, t1⟩, ⟨a2, t2⟩] := by
    rw [grant_pending]
    exact h2
  unfold RunPendingForExtension
  rw [h3]
  simp [invokeAll_executed, grant_executed, RequestScriptInjection_executed]

/-- Witness for C2 on a fresh controller with two basic closures. -/
theorem C2_fifo_order_witness :
    lookupPending "a" (mkActiveScriptController true).pending_requests_ = none ∧
    ((RunPendingForExtension "a" (grant "a" (RequestScriptInjection "a" 0 (.basic 2 true)
        (RequestScriptInjection "a" 0 (.basic 1 true) (mkActiveScriptController true))))).1).executed
      = (mkActiveScriptController true).executed
          ++ [(Closure.basic 1 true).ident, (Closure.basic 2 true).ident] :=
  ⟨rfl, C2_fifo_order (mkActiveScriptController true) "a"
    (.basic 1 true) (.basic 2 true) 0 0 rfl⟩

/-- C7: release affects only the released extension's queue: after submitting
a1 for p and a2 for a distinct q, releasing p executes exactly a1 and leaves
q's queue holding a2 unchanged. -/
theorem C7_release_isolation (c : ActiveScriptController) (p q : String)
    (a1 a2 : Closure) (t1 t2 : Int)
    (hpq : q ≠ p)
    (hp : lookupPending p c.pending_requests_ = none)
    (hq : lookupPending q c.pending_requests_ = none)
    (ht : a1.target ≠ some q) :
    ((RunPendingForExtension p (RequestScriptInjection q t2 a2
        (RequestScriptInjection p t1 a1 c))).1).executed = c.executed ++ [a1.ident] ∧
    lookupPending q ((RunPendingForExtension p (RequestScriptInjection q t2 a2
        (RequestScriptInjection p t1 a1 c))).1).pending_requests_ = some [⟨a2, t2⟩] := by
  have hpq' : p ≠ q := fun hh => hpq hh.symm
  have h1p : lookupPending p (RequestScriptInjection p t1 a1 c).pending_requests_
      = some [⟨a1, t1⟩] := by
    rw [lookupPending_submit_self, hp]
    rfl
  have h1q : lookupPending q (RequestScriptInjection p t1 a1 c).pending_requests_ = none := by
    rw [lookupPending_submit_ne q p hpq]
    exact hq
  have h2p : lookupPending p (RequestScriptInjection q t2 a2
      (RequestScriptInjection p t1 a1 c)).pending_requests_ = some [⟨a1, t1⟩] := by
    rw [lookupPending_submit_ne p q hpq']
    exact h1p
  have h2q : lookupPending q (RequestScriptInjection q t2 a2
      (RequestScriptInjection p t1 a1 c)).pending_requests_ = some [⟨a2, t2⟩] := by
    rw [lookupPending_submit_self, h1q]
    rfl
  have htargets : ∀ r ∈ [(⟨a1, t1⟩ : PendingRequest)], r.closure.target ≠ some q := by
    intro r hr
    simp at hr
    subst hr
    exact ht
  constructor
  · unfold RunPendingForExtension
    rw [h2p]
    simp [invokeAll_executed, RequestScriptInjection_executed]
  · unfold RunPendingForExtension
    rw [h2p]
    simp only [List.isEmpty_cons, Bool.false_eq_true, if_false]
    rw [invokeAll_lookup_of_targets_ne _ q htargets]
    show lookupPending q (erasePending p _) = _
    rw [lookupPending_erase_ne q p hpq]
    exact h2q

/-- Witness for C7 on a fresh controller with two basic closures for two
distinct extensions. -/
theorem C7_release_isolation_witness :
    ("q" : String) ≠ "p" ∧
    lookupPending "p" (mkActiveScriptController true).pending_requests_ = none ∧
    lookupPending "q" (mkActiveScriptController true).pending_requests_ = none ∧
    (Closure.basic 1 true).target ≠ some "q" ∧
    (((RunPendingForExtension "p" (RequestScriptInjection "q" 0 (.basic 2 true)
        (RequestScriptInjection "p" 0 (.basic 1 true) (mkActiveScriptController true)))).1).executed
      = (mkActiveScriptController true).executed ++ [(Closure.basic 1 true).ident] ∧
    lookupPending "q" ((RunPendingForExtension "p" (RequestScriptInjection "q" 0 (.basic 2 true)
        (RequestScriptInjection "p" 0 (.basic 1 true) (mkActiveScriptController true)))).1).pending_requests_
      = some [⟨.basic 2 true, 0⟩]) :=
  ⟨by decide, rfl, rfl, by decide,
    C7_release_isolation (mkActiveScriptController true) "p" "q"
      (.basic 1 true) (.basic 2 true) 0 0 (by decide) rfl rfl (by decide)⟩

/-- C8: a failing queued action is contained: submitting a failing closure and
then a succeeding closure for p, and releasing p, still invokes both in order
(so the second action runs despite the first failing), records exactly the
first in the failure trace, and leaves any other extension's queue entry
untouched. -/
theorem C8_failure_containment (c : ActiveScriptController) (p q : String)
    (n1 n2 : Nat) (t1 t2 : Int)
    (hp : lookupPending p c.pending_requests_ = none)
    (hq : q ≠ p) :
    ((RunPendingForExtension p (RequestScriptInjection p t2 (.basic n2 true)
        (RequestScriptInjection p t1 (.basic n1 false) c))).1).executed
      = c.executed ++ [n1, n2] ∧
    ((RunPendingForExtension p (RequestScriptInjection p t2 (.basic n2 true)
        (RequestScriptInjection p t1 (.basic n1 false) c))).1).failed
      = c.failed ++ [n1] ∧
    lookupPending q ((RunPendingForExtension p (RequestScriptInjection p t2 (.basic n2 true)
        (RequestScriptInjection p t1 (.basic n1 false) c))).1).pending_requests_
      = lookupPending q c.pending_requests_ := by
  have h1 : lookupPending p (RequestScriptInjection p t1 (.basic n1 false) c).pending_requests_
      = some [⟨.basic n1 false, t1⟩] := by
    rw [lookupPending_submit_self, hp]
    rfl
  have h2 : lookupPending p (RequestScriptInjection p t2 (.basic n2 true)
      (RequestScriptInjection p t1 (.basic n1 false) c)).pending_requests_
      = some [⟨.basic n1 false, t1⟩, ⟨.basic n2 true, t2⟩] := by
    rw [lookupPending_submit_self, h1]
    rfl
  refine ⟨?_, ?_, ?_⟩
  · unfold RunPendingForExtension
    rw [h2]
    simp [invokeAll, invoke, RequestScriptInjection_executed]
  · unfold RunPendingForExtension
    rw [h2]
    simp [invokeAll, invoke, RequestScriptInjection_failed]
  · unfold RunPendingForExtension
    rw [h2]
    simp only [List.isEmpty_cons, Bool.false_eq_true, if_false]
    show lookupPending q (invokeAll _ _).pending_requests_ = _
    rw [invokeAll_lookup_of_targets_ne _ q (by intro r hr; simp at hr
                                               rcases hr with h | h <;> subst h <;> simp [Closure.target])]
    show lookupPending q (erasePending p _) = _
    rw [lookupPending_erase_ne q p hq]
    rw [lookupPending_submit_ne q p hq, lookupPending_submit_ne q p hq]

/-- Witness for C8 on a fresh controller: closure 1 fails, closure 2 succeeds,
both are invoked and only closure 1 is recorded as failed. -/
theorem C8_failure_containment_witness :
    lookupPending "p" (mkActiveScriptController true).pending_requests_ = none ∧
    ("q" : String) ≠ "p" ∧
    (((RunPendingForExtension "p" (RequestScriptInjection "p" 0 (.basic 2 true)
        (RequestScriptInjection "p" 0 (.basic 1 false) (mkActiveScriptController true)))).1).executed
      = (mkActiveScriptController true).executed ++ [1, 2] ∧
    ((RunPendingForExtension "p" (RequestScriptInjection "p" 0 (.basic 2 true)
        (RequestScriptInjection "p" 0 (.basic 1 false) (mkActiveScriptController true)))).1).failed
      = (mkActiveScriptController true).failed ++ [1] ∧
    lookupPending "q" ((RunPendingForExtension "p" (RequestScriptInjection "p" 0 (.basic 2 true)
        (RequestScriptInjection "p" 0 (.basic 1 false) (mkActiveScriptController true)))).1).pending_requests_
      = lookupPending "q" (mkActiveScriptController true).pending_requests_) :=
  ⟨rfl, by decide,
    C8_failure_containment (mkActiveScriptController true) "p" "q" 1 2 0 0 rfl (by decide)⟩

/-- C4: a closure that re-enters the registry during release is deferred: if
the single pending closure for p submits a new closure for q when invoked,
releasing p executes only the submitting closure itself, and the newly
submitted closure is left pending in q's queue for a future release rather
than being executed by the release in progress. -/
theorem C4_reentrant_submit_deferred (c : ActiveScriptController) (p q : String)
    (n : Nat) (sub : Closure) (pid t : Int)
    (hp : lookupPending p c.pending_requests_ = none)
    (hq : lookupPending q c.pending_requests_ = none) :
    ((RunPendingForExtension p (RequestScriptInjection p t
        (.submitting n q sub pid) c)).1).executed = c.executed ++ [n] ∧
    lookupPending q ((RunPendingForExtension p (RequestScriptInjection p t
        (.submitting n q sub pid) c)).1).pending_requests_ = some [⟨sub, pid⟩] := by
  have h1 : lookupPending p (RequestScriptInjection p t
      (.submitting n q sub pid) c).pending_requests_
      = some [⟨.submitting n q sub pid, t⟩] := by
    rw [lookupPending_submit_self, hp]
    rfl
  have herase : lookupPending q (erasePending p (RequestScriptInjection p t
      (.submitting n q sub pid) c).pending_requests_) = none := by
    by_cases hqp : q = p
    · subst hqp
      exact lookupPending_erase_self q _
    · rw [lookupPending_erase_ne q p hqp]
      rw [lookupPending_submit_ne q p hqp]
      exact hq
  constructor
  · unfold RunPendingForExtension
    rw [h1]
    simp [invokeAll, invoke, RequestScriptInjection_executed]
  · unfold RunPendingForExtension
    rw [h1]
    simp only [List.isEmpty_cons, Bool.false_eq_true, if_false]
    show lookupPending q (invokeAll _ _).pending_requests_ = _
    rw [show invokeAll [(⟨.submitting n q sub pid, t⟩ : PendingRequest)]
          = invoke (.submitting n q sub pid) from rfl]
    show lookupPending q (RequestScriptInjection q pid sub _).pending_requests_ = _
    rw [lookupPending_submit_self]
    show some ((lookupPending q (erasePending p _)).getD [] ++ [⟨sub, pid⟩]) = _
    rw [herase]
    rfl

/-- Witness for C4 on a fresh controller: the single pending closure for "p"
re-submits a basic closure for "q"; releasing "p" executes only identity 5 and
leaves the re-submitted closure pending for "q". -/
theorem C4_reentrant_submit_deferred_witness :
    lookupPending "p" (mkActiveScriptController true).pending_requests_ = none ∧
    lookupPending "q" (mkActiveScriptController true).pending_requests_ = none ∧
    (((RunPendingForExtension "p" (RequestScriptInjection "p" 0
        (.submitting 5 "q" (.basic 6 true) 1) (mkActiveScriptController true))).1).executed
      = (mkActiveScriptController true).executed ++ [5] ∧
    lookupPending "q" ((RunPendingForExtension "p" (RequestScriptInjection "p" 0
        (.submitting 5 "q" (.basic 6 true) 1) (mkActiveScriptController true))).1).pending_requests_
      = some [⟨.basic 6 true, 1⟩]) :=
  ⟨rfl, rfl,
    C4_reentrant_submit_deferred (mkActiveScriptController true) "p" "q"
      5 (.basic 6 true) 1 0 rfl rfl⟩

/-- C5: provided no pending closure for p re-submits for p itself (no submit
for p happens in between), after a release for p the key p is absent from, or
empty in, the pending map, and a second release in a row does nothing: it
leaves the state unchanged and returns a released-count of 0. -/
theorem C5_release_empties_queue (c : ActiveScriptController) (p : String)
    (h : ((lookupPending p c.pending_requests_).getD []).all
          (fun r => !(r.closure.target == some p)) = true) :
    (lookupPending p ((RunPendingForExtension p c).1).pending_requests_).getD [] = [] ∧
    RunPendingForExtension p ((RunPendingForExtension p c).1)
      = ((RunPendingForExtension p c).1, 0) := by
  cases hl : lookupPending p c.pending_requests_ with
  | none =>
    have hrun : RunPendingForExtension p c = (c, 0) := run_of_lookup_none p c hl
    rw [hrun]
    exact ⟨by rw [hl]; rfl, hrun⟩
  | some reqs =>
    cases reqs with
    | nil =>
      have hrun : RunPendingForExtension p c = (c, 0) := by
        unfold RunPendingForExtension
        rw [hl]
        rfl
      rw [hrun]
      exact ⟨by rw [hl]; rfl, hrun⟩
    | cons r rest =>
      have hrun : RunPendingForExtension p c
          = (invokeAll (r :: rest)
              { c with pending_requests_ := erasePending p c.pending_requests_ },
             (r :: rest).length) := by
        unfold RunPendingForExtension
        rw [hl]
        rfl
      have htargets : ∀ x ∈ r :: rest, x.closure.target ≠ some p := by
        intro x hx hcontra
        rw [hl] at h
        have hx2 := List.all_eq_true.mp h x hx
        rw [hcontra] at hx2
        simp at hx2
      have hlook : lookupPending p ((RunPendingForExtension p c).1).pending_requests_
          = none := by
        rw [hrun]
        rw [invokeAll_lookup_of_targets_ne _ p htargets]
        show lookupPending p (erasePending p _) = none
        exact lookupPending_erase_self p _
      exact ⟨by rw [hlook]; rfl, run_of_lookup_none p _ hlook⟩

/-- Witness for C5: one basic (non-re-submitting) closure pending for "p";
after the release "p" is absent from the map and a second release is a no-op
returning 0. -/
theorem C5_release_empties_queue_witness :
    ((lookupPending "p" (RequestScriptInjection "p" 0 (.basic 1 true)
        (mkActiveScriptController true)).pending_requests_).getD []).all
          (fun r => !(r.closure.target == some "p")) = true ∧
    ((lookupPending "p" ((RunPendingForExtension "p" (RequestScriptInjection "p" 0 (.basic 1 true)
        (mkActiveScriptController true))).1).pending_requests_).getD [] = [] ∧
    RunPendingForExtension "p" ((RunPendingForExtension "p" (RequestScriptInjection "p" 0 (.basic 1 true)
        (mkActiveScriptController true))).1)
      = ((RunPendingForExtension "p" (RequestScriptInjection "p" 0 (.basic 1 true)
        (mkActiveScriptController true))).1, 0)) :=
  ⟨by decide,
    C5_release_empties_queue (RequestScriptInjection "p" 0 (.basic 1 true)
      (mkActiveScriptController true)) "p" (by decide)⟩

end Extensions
